import Mathlib

/-!
Verification development for the lab2 play-script renderer.

The Rust sources under `src/lab2/` are shallowly embedded below:
pure fragments become Lean functions, file access becomes an explicit
`FS` map from filenames to optional raw line lists, terminal output
becomes explicit event lists, and the process-wide diagnostic flag
(`WHINGE_MODE`) becomes an explicit `whinge : Bool` argument threaded
through every function that reads it.
-/

namespace Lab2

/-! ## Character and string utilities

The Rust code uses `str::trim`, `str::split_whitespace`,
`str::split_once(char::is_whitespace)` and `String` ordering.  These are
embedded over `List Char`; `Char.isWhitespace` models the ASCII fragment
of Rust's `char::is_whitespace`, which is the only fragment exercised by
the file formats.  Rust's `String` ordering compares UTF-8 byte
sequences, which coincides with lexicographic comparison of code points,
embedded here as `lexLe` on `List Char`.
-/

/-- Strip leading and trailing whitespace characters from a character list
(the embedding of Rust `str::trim`). -/
def trimChars (l : List Char) : List Char :=
  ((l.dropWhile Char.isWhitespace).reverse.dropWhile Char.isWhitespace).reverse

/-- The embedding of Rust `str::trim` on strings. -/
def trimStr (s : String) : String := String.mk (trimChars s.data)

/-- Lexicographic comparison of character lists by code point; equals Rust's
byte-wise `String` ordering since UTF-8 preserves code-point order. -/
def lexLe : List Char → List Char → Bool
  | [], _ => true
  | _ :: _, [] => false
  | a :: as, b :: bs =>
    if a.toNat = b.toNat then lexLe as bs else decide (a.toNat < b.toNat)

/-- The embedding of Rust's `String` total order (less-or-equal). -/
def strLe (a b : String) : Bool := lexLe a.data b.data

/-- Accumulator pass for `splitWhitespace`: the current token is collected in
reverse in `acc`, tokens are emitted at whitespace boundaries. -/
def splitWSAux : List Char → List Char → List String
  | [], acc => if acc = [] then [] else [String.mk acc.reverse]
  | c :: cs, acc =>
    if c.isWhitespace then
      if acc = [] then splitWSAux cs [] else String.mk acc.reverse :: splitWSAux cs []
    else splitWSAux cs (c :: acc)

/-- The embedding of Rust `str::split_whitespace().collect()`: the maximal
non-whitespace runs of the string, in order. -/
def splitWhitespace (s : String) : List String := splitWSAux s.data []

/-- Accumulator pass for `splitOnceWS`. -/
def splitOnceWSAux : List Char → List Char → Option (String × String)
  | [], _ => none
  | c :: cs, acc =>
    if c.isWhitespace then some (String.mk acc.reverse, String.mk cs)
    else splitOnceWSAux cs (c :: acc)

/-- The embedding of Rust `str::split_once(char::is_whitespace)`: splits at
the first whitespace character, which is consumed; `none` when the string
contains no whitespace at all. -/
def splitOnceWS (s : String) : Option (String × String) := splitOnceWSAux s.data []

/-- Digit-accumulation pass for `parseUsize`. -/
def parseDigits : List Char → Nat → Option Nat
  | [], acc => some acc
  | c :: cs, acc =>
    if c.isDigit then parseDigits cs (acc * 10 + (c.toNat - ('0').toNat)) else none

/-- The embedding of Rust `str::parse::<usize>()` on a 64-bit platform:
an optional leading plus sign followed by one or more ASCII digits, rejected
on overflow.  (A final-value bound is equivalent to Rust's step-wise overflow
check because the accumulated value is monotone.) -/
def parseUsize (s : String) : Option Nat :=
  let cs := match s.data with
    | '+' :: rest => rest
    | l => l
  match cs with
  | [] => none
  | _ =>
    match parseDigits cs 0 with
    | none => none
    | some v => if v < 2 ^ 64 then some v else none

/-! ## Shared declarations (`declarations.rs`, `script_gen.rs`)

`declarations.rs` under `src/` defines the command-line constants,
`WHINGE_MODE`, and the exit codes `BAD_COMMAND_LINE_ERROR`,
`SCRIPT_GENERATION_ERROR` and `SUCCESS`, but the error-code constants
`FAILED_TO_OPEN_FILE`, `FAILED_TO_READ_LINE_FROM_FILE`,
`CONFIG_PARSING_ERROR` and `SCRIPT_PARSING_ERROR` imported from it by
`script_gen.rs`, `scene_fragment.rs` and `play.rs` are missing from that
file. -/

/-- Exit code from `declarations.rs`: generation failure. -/
def SCRIPT_GENERATION_ERROR : Nat := 2

/-- Modelled from the spec: `FAILED_TO_OPEN_FILE` is imported from
`declarations.rs` but missing from the file under `src/`; the spec maps
every assembly failure to the single "generation failure" code. -/
def FAILED_TO_OPEN_FILE : Nat := SCRIPT_GENERATION_ERROR

/-- Modelled from the spec: `FAILED_TO_READ_LINE_FROM_FILE` is imported from
`declarations.rs` but missing from the file under `src/`. -/
def FAILED_TO_READ_LINE_FROM_FILE : Nat := SCRIPT_GENERATION_ERROR

/-- Modelled from the spec: `CONFIG_PARSING_ERROR` is imported from
`declarations.rs` but missing from the file under `src/`. -/
def CONFIG_PARSING_ERROR : Nat := SCRIPT_GENERATION_ERROR

/-- Modelled from the spec: `SCRIPT_PARSING_ERROR` is imported from
`declarations.rs` but missing from the file under `src/`. -/
def SCRIPT_PARSING_ERROR : Nat := SCRIPT_GENERATION_ERROR

/-- The file system seen by the program: a filename either cannot be opened
(`none`) or yields the ordered list of raw lines produced by repeated
`BufReader::read_line` calls (terminators still attached).  Mid-stream read
errors are outside the model: a file is either unopenable or fully
readable. -/
def FS : Type := String → Option (List String)

/-- The embedding of `script_gen.rs::grab_trimmed_file_lines`: open the file,
read it line by line, and push `line.trim()` for every line read. -/
def grab_trimmed_file_lines (fs : FS) (filename : String) : Except Nat (List String) :=
  match fs filename with
  | none => Except.error FAILED_TO_OPEN_FILE
  | some rawLines => Except.ok (rawLines.map trimStr)

/-- Advisory diagnostics emitted on the terminal, one constructor per
`eprintln!`/`println!` warning site in the parsing code. -/
inductive ParseWarning where
  | invalidLineNumber (token : String)
  | tooFewConfigTokens (expected got : Nat) (line : String)
  | tooManyConfigTokens (expected got : Nat) (line : String)
  | sceneWithoutTitle
  | extraTokensAfterConfigFilename (extra : String)
deriving DecidableEq, Repr

/-! ## Player (`player.rs`) -/

/-- Constant from `player.rs` and `scene_fragment.rs`. -/
def CHARACTER_LINE_STEP : Nat := 1

/-- The `Player` struct of `player.rs`: a character's name, its parsed
dialogue `lines` as (line number, text) pairs, and the recitation cursor
`index`. -/
structure Player where
  name : String
  lines : List (Nat × String)
  index : Nat
deriving DecidableEq, Repr

/-- `Player::new`. -/
def Player.new (name : String) : Player :=
  { name := name, lines := [], index := 0 }

/-- The embedding of `Player::add_script_line`: skip empty lines, split at
the first whitespace, parse the head token as a line number; on success push
`(number, rest.trim())`, otherwise warn in whinge mode and drop the line. -/
def Player.add_script_line (p : Player) (line : String) (whinge : Bool) :
    Player × List ParseWarning :=
  if line = "" then (p, [])
  else
    match splitOnceWS line with
    | none => (p, [])
    | some (first_token, rest_of_line) =>
      match parseUsize first_token with
      | some line_number =>
        ({ p with lines := p.lines ++ [(line_number, trimStr rest_of_line)] }, [])
      | none => (p, if whinge then [ParseWarning.invalidLineNumber first_token] else [])

/-- The `for line in &part_lines` loop of `Player::prepare`, folding
`add_script_line` over the file's lines and collecting warnings. -/
def Player.processLines (p : Player) (ls : List String) (whinge : Bool) :
    Player × List ParseWarning :=
  ls.foldl
    (fun acc line =>
      let r := Player.add_script_line acc.1 line whinge
      (r.1, acc.2 ++ r.2))
    (p, [])

/-- Rust's `Vec<(usize, String)>::sort()` orders entries by the derived
lexicographic order on pairs: first by line number, then by the byte-wise
`String` order. -/
def lineLe (a b : Nat × String) : Bool :=
  decide (a.1 < b.1) || (decide (a.1 = b.1) && strLe a.2 b.2)

/-- `lineLe` as a decidable relation, for reuse of the sorting lemmas. -/
def LineLeP (a b : Nat × String) : Prop := lineLe a b = true

instance : DecidableRel LineLeP := fun a b => instDecidableEqBool (lineLe a b) true

/-- The embedding of `self.lines.sort()` in `Player::prepare`: Rust's sort is
stable, so it is embedded as a stable insertion sort by the pair order. -/
def sortLines (l : List (Nat × String)) : List (Nat × String) :=
  List.insertionSort LineLeP l

/-- The embedding of `Player::prepare`: read the dialogue file, fold
`add_script_line` over its lines, then sort the collected entries.  Note
there is no emptiness check: a zero-line dialogue file is accepted. -/
def Player.prepare (p : Player) (fs : FS) (part_filename : String) (whinge : Bool) :
    Except Nat (Player × List ParseWarning) :=
  match grab_trimmed_file_lines fs part_filename with
  | Except.error e => Except.error e
  | Except.ok part_lines =>
    let r := Player.processLines p part_lines whinge
    Except.ok ({ r.1 with lines := sortLines r.1.lines }, r.2)

/-- `Player::next_line`: the line number at the cursor, `none` when
exhausted. -/
def Player.next_line (p : Player) : Option Nat :=
  (p.lines.get? p.index).map Prod.fst

/-- Terminal output events of recitation, one constructor per `println!` /
`eprintln!` site in `Player::speak` and `SceneFragment::recite`.
`speakerHeader` stands for the blank line plus `"{name}."` pair printed on a
speaker change. -/
inductive OutEvent where
  | speakerHeader (name : String)
  | dialogue (text : String)
  | warnMissing (n : Nat)
  | warnDuplicate (n : Nat)
deriving DecidableEq, Repr

/-- The embedding of `Player::speak`: a no-op when the cursor is exhausted;
otherwise emit a speaker-change header when the name differs from the
current speaker (updating it), emit the dialogue text, and advance the
cursor.  Returns (updated player, updated current speaker, output). -/
def Player.speak (p : Player) (current_speaker : String) :
    Player × String × List OutEvent :=
  match p.lines.get? p.index with
  | none => (p, current_speaker, [])
  | some entry =>
    let advanced : Player := { p with index := p.index + CHARACTER_LINE_STEP }
    if p.name = current_speaker then
      (advanced, current_speaker, [OutEvent.dialogue entry.2])
    else
      (advanced, p.name, [OutEvent.speakerHeader p.name, OutEvent.dialogue entry.2])

/-! ## SceneFragment (`scene_fragment.rs`) -/

/-- Constant from `scene_fragment.rs`: a config line carries two tokens. -/
def CONFIG_LINE_TOKEN_COUNT : Nat := 2

/-- The `SceneFragment` struct: a (possibly blank) title and the cast. -/
structure SceneFragment where
  title : String
  players : List Player
deriving DecidableEq, Repr

/-- The embedding of `SceneFragment::add_config`: tokenize the line, warn in
whinge mode on a token count other than two, and push the (name, filename)
pair when at least two tokens are present (extra tokens are ignored). -/
def SceneFragment.add_config (line : String) (config : List (String × String))
    (whinge : Bool) : List (String × String) × List ParseWarning :=
  let tokens := splitWhitespace line
  let warns :=
    if tokens.length < CONFIG_LINE_TOKEN_COUNT && whinge then
      [ParseWarning.tooFewConfigTokens CONFIG_LINE_TOKEN_COUNT tokens.length line]
    else if tokens.length > CONFIG_LINE_TOKEN_COUNT && whinge then
      [ParseWarning.tooManyConfigTokens CONFIG_LINE_TOKEN_COUNT tokens.length line]
    else []
  if tokens.length ≥ CONFIG_LINE_TOKEN_COUNT then
    (config ++ [(tokens.getD 0 "", tokens.getD 1 "")], warns)
  else (config, warns)

/-- The embedding of `SceneFragment::read_config`: read the config file,
fail on a zero-line file, then fold `add_config` over its lines. -/
def SceneFragment.read_config (fs : FS) (config_filename : String) (whinge : Bool) :
    Except Nat (List (String × String) × List ParseWarning) :=
  match grab_trimmed_file_lines fs config_filename with
  | Except.error e => Except.error e
  | Except.ok config_lines =>
    if config_lines = [] then Except.error CONFIG_PARSING_ERROR
    else
      Except.ok (config_lines.foldl
        (fun acc line =>
          let r := SceneFragment.add_config line acc.1 whinge
          (r.1, acc.2 ++ r.2))
        ([], []))

/-- The embedding of `SceneFragment::process_config`: for each (name,
filename) pair create a `Player`, prepare it from its dialogue file
(propagating errors), and collect the prepared players in order. -/
def SceneFragment.process_config (fs : FS) (whinge : Bool) :
    List (String × String) → Except Nat (List Player × List ParseWarning)
  | [] => Except.ok ([], [])
  | (part_name, part_filename) :: rest =>
    match Player.prepare (Player.new part_name) fs part_filename whinge with
    | Except.error e => Except.error e
    | Except.ok (player, ws) =>
      match SceneFragment.process_config fs whinge rest with
      | Except.error e => Except.error e
      | Except.ok (players, ws2) => Except.ok (player :: players, ws ++ ws2)

/-- The `Ord` implementation on `Player` in `player.rs`, as a boolean
less-or-equal: two line-less players are equal, a line-less player sorts
before one with lines, otherwise players compare by their first (smallest)
line number. -/
def playerLe (a b : Player) : Bool :=
  match a.lines, b.lines with
  | [], [] => true
  | [], _ :: _ => true
  | _ :: _, [] => false
  | (n, _) :: _, (m, _) :: _ => decide (n ≤ m)

/-- `playerLe` as a decidable relation. -/
def PlayerLeP (a b : Player) : Prop := playerLe a b = true

instance : DecidableRel PlayerLeP := fun a b => instDecidableEqBool (playerLe a b) true

/-- The embedding of `self.players.sort()` in `SceneFragment::prepare`:
Rust's stable sort by the `Player` ordering, as a stable insertion sort. -/
def sortPlayers (l : List Player) : List Player :=
  List.insertionSort PlayerLeP l

/-- The embedding of `SceneFragment::prepare`: read the configuration,
build and prepare the cast, then sort it by the `Player` ordering. -/
def SceneFragment.prepare (title : String) (fs : FS) (config_filename : String)
    (whinge : Bool) : Except Nat (SceneFragment × List ParseWarning) :=
  match SceneFragment.read_config fs config_filename whinge with
  | Except.error e => Except.error e
  | Except.ok (config, ws1) =>
    match SceneFragment.process_config fs whinge config with
    | Except.error e => Except.error e
    | Except.ok (players, ws2) =>
      Except.ok ({ title := title, players := sortPlayers players }, ws1 ++ ws2)

/-- `SceneFragment::has_scene_title`: whether the title is non-blank. -/
def SceneFragment.has_scene_title (f : SceneFragment) : Bool :=
  !(trimStr f.title = "")

/-- The cast's names in enumeration order. -/
def castNames (f : SceneFragment) : List String := f.players.map (fun p => p.name)

/-- The `[Enter ...]` announcements of `SceneFragment::enter`: cast members
absent (by exact name equality) from the previous scene's cast, in cast
enumeration order.  (The title print that precedes them is not part of the
announcement list.) -/
def SceneFragment.enter_names (self previous : SceneFragment) : List String :=
  (self.players.filter
      (fun player => !(previous.players.any (fun p => p.name == player.name)))).map
    (fun player => player.name)

/-- The `[Exit ...]` announcements of `SceneFragment::exit`: cast members
absent (by exact name equality) from the next scene's cast, in reverse cast
enumeration order. -/
def SceneFragment.exit_names (self next : SceneFragment) : List String :=
  (self.players.reverse.filter
      (fun player => !(next.players.any (fun p => p.name == player.name)))).map
    (fun player => player.name)

/-- The names the first scene retains across the boundary to `next`: the
complement, within its cast, of the membership test used by
`SceneFragment::exit`.  Used to state the partition property. -/
def retainedNames (f next : SceneFragment) : List String :=
  (f.players.filter (fun player => next.players.any (fun p => p.name == player.name))).map
    (fun player => player.name)

/-! ## The recitation merge loop (`SceneFragment::recite`) -/

/-- The linear scan of `SceneFragment::recite` over the peeked next line
numbers, carried out on `players.map Player.next_line` with the running
enumeration index `i` and the best (index, line number) found so far; a
later entry replaces the best only when strictly smaller, so the first
player achieving the minimum wins. -/
def scanMin : List (Option Nat) → Nat → Option (Nat × Nat) → Option (Nat × Nat)
  | [], _, best => best
  | none :: rest, i, best => scanMin rest (i + 1) best
  | some n :: rest, i, best =>
    match best with
    | none => scanMin rest (i + 1) (some (i, n))
    | some (bi, bn) =>
      if n < bn then scanMin rest (i + 1) (some (i, n))
      else scanMin rest (i + 1) (some (bi, bn))

/-- The player-selection scan of one `recite` iteration: the index and
pending line number of the chosen player, `none` when every player is
exhausted. -/
def findNext (players : List Player) : Option (Nat × Nat) :=
  scanMin (players.map Player.next_line) 0 none

/-- The missing-line warnings for every integer in `[exp, actual)`. -/
def missingEvents (exp actual : Nat) : List OutEvent :=
  (List.range' exp (actual - exp)).map OutEvent.warnMissing

/-- The expected-line-number bookkeeping of one `recite` iteration (lines
209-227 of `scene_fragment.rs`): on a gap warn about each missing number in
whinge mode and set the counter to `actual`; then, if `actual` equals the
(possibly updated) counter, advance it by one, and otherwise warn about a
duplicate in whinge mode.  Returns (new expected value, warning events). -/
def checkExpected (exp actual : Nat) (whinge : Bool) : Nat × List OutEvent :=
  let p1 : Nat × List OutEvent :=
    if actual > exp then (actual, if whinge then missingEvents exp actual else [])
    else (exp, [])
  if actual = p1.1 then (p1.1 + CHARACTER_LINE_STEP, p1.2)
  else if decide (actual < p1.1) && whinge then
    (p1.1, p1.2 ++ [OutEvent.warnDuplicate actual])
  else (p1.1, p1.2)

/-- One iteration of the `recite` loop after the scan has chosen player
`idx` with pending line number `actual`: run the expected-counter
bookkeeping, then have the chosen player speak.  Returns (updated players,
updated current speaker, new expected value, output events). -/
def reciteStep (players : List Player) (current_speaker : String) (exp : Nat)
    (whinge : Bool) (idx actual : Nat) :
    List Player × String × Nat × List OutEvent :=
  let chk := checkExpected exp actual whinge
  match players.get? idx with
  | none => (players, current_speaker, chk.1, chk.2)
  | some p =>
    let s := p.speak current_speaker
    (players.set idx s.1, s.2.1, chk.1, chk.2 ++ s.2.2)

/-- The number of dialogue lines a player has not yet delivered. -/
def Player.remaining (p : Player) : Nat := p.lines.length - p.index

/-- Total number of undelivered dialogue lines across the cast; the
termination measure of the `recite` loop. -/
def totalRemaining (players : List Player) : Nat :=
  (players.map Player.remaining).sum

/-! ## Play (`play.rs`) -/

/-- Constant from `play.rs`: a `[scene]` line should carry a title token. -/
def SCENE_SCRIPT_LENGTH : Nat := 2

/-- Constant from `play.rs`: a config-reference line carries one token. -/
def CONFIG_SCRIPT_LENGTH : Nat := 1

/-- The embedding of `Play::add_config`: blank lines are ignored; a line
whose first token is `[scene]` pushes a title entry built from the remaining
tokens, except that in whinge mode a bare `[scene]` warns and returns
early; any other line pushes its first token as a config filename, warning
in whinge mode about extra tokens. -/
def Play.add_config (line : String) (config : List (Bool × String))
    (whinge : Bool) : List (Bool × String) × List ParseWarning :=
  if trimStr line = "" then (config, [])
  else
    match splitWhitespace line with
    | [] => (config, [])
    | t0 :: rest =>
      if t0 = "[scene]" then
        if rest.length + 1 < SCENE_SCRIPT_LENGTH && whinge then
          (config, [ParseWarning.sceneWithoutTitle])
        else
          (config ++ [(true, String.intercalate " " rest)], [])
      else
        if rest.length + 1 > CONFIG_SCRIPT_LENGTH && whinge then
          (config ++ [(false, t0)],
           [ParseWarning.extraTokensAfterConfigFilename (String.intercalate " " rest)])
        else (config ++ [(false, t0)], [])

/-- The `for line in &script_lines` loop of `Play::read_config`: fold
`Play::add_config` over the script's lines. -/
def Play.readEntries (ls : List String) (whinge : Bool) :
    List (Bool × String) × List ParseWarning :=
  ls.foldl
    (fun acc line =>
      let r := Play.add_config line acc.1 whinge
      (r.1, acc.2 ++ r.2))
    ([], [])

/-- The embedding of `Play::read_config`: read the script file, fail on a
zero-line script, then fold `add_config` over its lines. -/
def Play.read_config (fs : FS) (script_filename : String) (whinge : Bool) :
    Except Nat (List (Bool × String) × List ParseWarning) :=
  match grab_trimmed_file_lines fs script_filename with
  | Except.error e => Except.error e
  | Except.ok script_lines =>
    if script_lines = [] then Except.error SCRIPT_PARSING_ERROR
    else Except.ok (Play.readEntries script_lines whinge)

/-- The embedding of `Play::process_config`: walk the entries threading the
pending title (initially empty); a title entry replaces it, a config entry
builds and prepares a scene fragment with the pending title (which then
resets to empty), propagating errors. -/
def Play.process_config (fs : FS) (whinge : Bool) :
    List (Bool × String) → String → Except Nat (List SceneFragment × List ParseWarning)
  | [], _ => Except.ok ([], [])
  | (true, text) :: rest, _ => Play.process_config fs whinge rest text
  | (false, text) :: rest, title =>
    match SceneFragment.prepare title fs text whinge with
    | Except.error e => Except.error e
    | Except.ok (fragment, ws1) =>
      match Play.process_config fs whinge rest "" with
      | Except.error e => Except.error e
      | Except.ok (fragments, ws2) => Except.ok (fragment :: fragments, ws1 ++ ws2)

/-- The embedding of `Play::prepare`: read the script into entries, build
the scene fragments, then fail when no fragment was produced or when the
first fragment's title is blank. -/
def Play.prepare (fs : FS) (script_filename : String) (whinge : Bool) :
    Except Nat (List SceneFragment × List ParseWarning) :=
  match Play.read_config fs script_filename whinge with
  | Except.error e => Except.error e
  | Except.ok (config, ws1) =>
    match Play.process_config fs whinge config "" with
    | Except.error e => Except.error e
    | Except.ok (fragments, ws2) =>
      match fragments with
      | [] => Except.error SCRIPT_PARSING_ERROR
      | first :: _ =>
        if !first.has_scene_title then Except.error SCRIPT_PARSING_ERROR
        else Except.ok (fragments, ws1 ++ ws2)

/-! ## Correctness of the selection scan -/

/-- The scan returns `none` exactly when it started with no best candidate
and every scanned entry is `none`. -/
lemma scanMin_eq_none (l : List (Option Nat)) :
    ∀ (i : Nat) (best : Option (Nat × Nat)),
    scanMin l i best = none ↔ best = none ∧ ∀ o ∈ l, o = none := by
  induction l with
  | nil => intro i best; simp [scanMin]
  | cons hd rest ih =>
    intro i best
    match hd with
    | none => simp [scanMin, ih]
    | some m =>
      match best with
      | none => simp [scanMin, ih]
      | some (bi, bn) =>
        by_cases h : m < bn <;> simp [scanMin, h, ih]

/-- Full characterization of a successful scan: the result is either the
initial best candidate or an entry of the list (with its absolute index);
it is a lower bound of the initial best and of every entry; the initial
best wins ties against the list; and every entry strictly before the chosen
index is strictly larger. -/
lemma scanMin_spec (l : List (Option Nat)) :
    ∀ (i : Nat) (best : Option (Nat × Nat)) (idx n : Nat),
    (∀ bi bn, best = some (bi, bn) → bi < i) →
    scanMin l i best = some (idx, n) →
    (best = some (idx, n) ∨ ∃ j, l.get? j = some (some n) ∧ idx = i + j) ∧
    (∀ bi bn, best = some (bi, bn) → n ≤ bn ∧ (n = bn → idx = bi)) ∧
    (∀ j m, l.get? j = some (some m) → n ≤ m ∧ (i + j < idx → n < m)) := by
  induction l with
  | nil =>
    intro i best idx n _ h
    simp only [scanMin] at h
    subst h
    refine ⟨Or.inl rfl, ?_, ?_⟩
    · intro bi bn hbe
      obtain ⟨rfl, rfl⟩ : idx = bi ∧ n = bn := by simpa using hbe
      exact ⟨Nat.le_refl n, fun _ => rfl⟩
    · intro j m hj
      simp at hj
  | cons hd rest ih =>
    intro i best idx n hb h
    cases hd with
    | none =>
      simp only [scanMin] at h
      obtain ⟨p1, p2, p3⟩ :=
        ih (i + 1) best idx n
          (fun bi bn hbe => Nat.lt_trans (hb bi bn hbe) (Nat.lt_succ_self i)) h
      refine ⟨?_, p2, ?_⟩
      · rcases p1 with hbest | ⟨j, hj, hidx⟩
        · exact Or.inl hbest
        · exact Or.inr ⟨j + 1, by simpa using hj, by omega⟩
      · intro j m hj
        cases j with
        | zero => simp at hj
        | succ j' =>
          obtain ⟨h1, h2⟩ := p3 j' m (by simpa using hj)
          exact ⟨h1, fun hlt => h2 (by omega)⟩
    | some m₀ =>
      cases best with
      | none =>
        simp only [scanMin] at h
        obtain ⟨p1, p2, p3⟩ :=
          ih (i + 1) (some (i, m₀)) idx n
            (fun bi bn hbe => by
              have hh : bi = i ∧ bn = m₀ := by simpa using hbe.symm
              omega) h
        obtain ⟨hle, htie⟩ := p2 i m₀ rfl
        refine ⟨?_, ?_, ?_⟩
        · rcases p1 with hbest | ⟨j, hj, hidx⟩
          · obtain ⟨rfl, rfl⟩ : i = idx ∧ m₀ = n := by simpa using hbest
            exact Or.inr ⟨0, by simp, by omega⟩
          · exact Or.inr ⟨j + 1, by simpa using hj, by omega⟩
        · intro bi bn hbe; simp at hbe
        · intro j m hj
          cases j with
          | zero =>
            have hm : m₀ = m := by simpa using hj
            subst hm
            refine ⟨hle, fun hlt => ?_⟩
            rcases Nat.lt_or_ge n m₀ with h' | h'
            · exact h'
            · exfalso
              have hn : n = m₀ := Nat.le_antisymm hle h'
              have := htie hn
              omega
          | succ j' =>
            obtain ⟨h1, h2⟩ := p3 j' m (by simpa using hj)
            exact ⟨h1, fun hlt => h2 (by omega)⟩
      | some b₀ =>
        obtain ⟨bi₀, bn₀⟩ := b₀
        by_cases hcmp : m₀ < bn₀
        · simp only [scanMin, if_pos hcmp] at h
          obtain ⟨p1, p2, p3⟩ :=
            ih (i + 1) (some (i, m₀)) idx n
              (fun bi bn hbe => by
                have hh : bi = i ∧ bn = m₀ := by simpa using hbe.symm
                omega) h
          obtain ⟨hle, htie⟩ := p2 i m₀ rfl
          refine ⟨?_, ?_, ?_⟩
          · rcases p1 with hbest | ⟨j, hj, hidx⟩
            · obtain ⟨rfl, rfl⟩ : i = idx ∧ m₀ = n := by simpa using hbest
              exact Or.inr ⟨0, by simp, by omega⟩
            · exact Or.inr ⟨j + 1, by simpa using hj, by omega⟩
          · intro bi bn hbe
            obtain ⟨rfl, rfl⟩ : bi = bi₀ ∧ bn = bn₀ := by simpa using hbe.symm
            constructor
            · omega
            · intro hn; omega
          · intro j m hj
            cases j with
            | zero =>
              have hm : m₀ = m := by simpa using hj
              subst hm
              refine ⟨hle, fun hlt => ?_⟩
              rcases Nat.lt_or_ge n m₀ with h' | h'
              · exact h'
              · exfalso
                have hn : n = m₀ := Nat.le_antisymm hle h'
                have := htie hn
                omega
            | succ j' =>
              obtain ⟨h1, h2⟩ := p3 j' m (by simpa using hj)
              exact ⟨h1, fun hlt => h2 (by omega)⟩
        · simp only [scanMin, if_neg hcmp] at h
          have hbi₀ : bi₀ < i := hb bi₀ bn₀ rfl
          obtain ⟨p1, p2, p3⟩ :=
            ih (i + 1) (some (bi₀, bn₀)) idx n
              (fun bi bn hbe => by
                have hh : bi = bi₀ ∧ bn = bn₀ := by simpa using hbe.symm
                omega) h
          obtain ⟨hle, htie⟩ := p2 bi₀ bn₀ rfl
          refine ⟨?_, ?_, ?_⟩
          · rcases p1 with hbest | ⟨j, hj, hidx⟩
            · exact Or.inl hbest
            · exact Or.inr ⟨j + 1, by simpa using hj, by omega⟩
          · intro bi bn hbe
            obtain ⟨rfl, rfl⟩ : bi = bi₀ ∧ bn = bn₀ := by simpa using hbe.symm
            exact ⟨hle, htie⟩
          · intro j m hj
            cases j with
            | zero =>
              have hm : m₀ = m := by simpa using hj
              subst hm
              refine ⟨by omega, fun hlt => ?_⟩
              rcases Nat.lt_or_ge n bn₀ with h' | h'
              · omega
              · exfalso
                have hn : n = bn₀ := Nat.le_antisymm hle h'
                have := htie hn
                omega
            | succ j' =>
              obtain ⟨h1, h2⟩ := p3 j' m (by simpa using hj)
              exact ⟨h1, fun hlt => h2 (by omega)⟩

/-- The scan over the cast comes up empty exactly when every player is
exhausted. -/
lemma findNext_eq_none (players : List Player) :
    findNext players = none ↔ ∀ p ∈ players, p.next_line = none := by
  unfold findNext
  rw [scanMin_eq_none]
  simp

/-- A successful scan selects a player whose pending line number is the
global minimum, and every strictly earlier player's pending number is
strictly larger (the first player achieving the minimum is selected). -/
lemma findNext_spec (players : List Player) (idx actual : Nat)
    (h : findNext players = some (idx, actual)) :
    (∃ p, players.get? idx = some p ∧ p.next_line = some actual) ∧
    (∀ j q m, players.get? j = some q → q.next_line = some m →
      actual ≤ m ∧ (j < idx → actual < m)) := by
  obtain ⟨p1, _, p3⟩ :=
    scanMin_spec (players.map Player.next_line) 0 none idx actual (by simp) h
  constructor
  · rcases p1 with hbest | ⟨j, hj, hidx⟩
    · simp at hbest
    · rw [List.get?_map] at hj
      obtain rfl : idx = j := by omega
      cases hq : players.get? idx with
      | none => rw [hq] at hj; simp at hj
      | some q =>
        rw [hq] at hj
        exact ⟨q, rfl, by simpa using hj⟩
  · intro j q m hq hm
    have hj : (players.map Player.next_line).get? j = some (some m) := by
      rw [List.get?_map, hq]
      simp [hm]
    obtain ⟨h1, h2⟩ := p3 j m hj
    exact ⟨h1, fun hlt => h2 (by omega)⟩

/-- A pending `next_line` means the cursor points at an actual entry. -/
lemma next_line_some (p : Player) (n : Nat) (h : p.next_line = some n) :
    ∃ e, p.lines.get? p.index = some e ∧ e.1 = n ∧ p.index < p.lines.length := by
  unfold Player.next_line at h
  cases hg : p.lines.get? p.index with
  | none => rw [hg] at h; simp at h
  | some e =>
    rw [hg] at h
    have hlt : p.index < p.lines.length := by
      by_contra hge
      rw [List.get?_eq_none.mpr (by omega)] at hg
      exact Option.noConfusion hg
    exact ⟨e, rfl, by simpa using h, hlt⟩

/-- When the cursor points at an entry, `speak` advances it by one and emits
exactly one dialogue event (possibly preceded by a speaker header). -/
lemma speak_of_pending (p : Player) (cs : String) (e : Nat × String)
    (h : p.lines.get? p.index = some e) :
    (p.speak cs).1 = { p with index := p.index + CHARACTER_LINE_STEP } ∧
    ((p.speak cs).2.2 = [OutEvent.dialogue e.2] ∨
     (p.speak cs).2.2 = [OutEvent.speakerHeader p.name, OutEvent.dialogue e.2]) := by
  unfold Player.speak
  rw [h]
  by_cases hn : p.name = cs
  · simp [hn]
  · simp [hn]

/-- Updating one player's cursor from a pending entry to its successor
drops the total number of undelivered lines by exactly one. -/
lemma totalRemaining_set_succ (players : List Player) :
    ∀ (idx : Nat) (p : Player),
    players.get? idx = some p → p.index < p.lines.length →
    totalRemaining
        (players.set idx { p with index := p.index + CHARACTER_LINE_STEP }) + 1
      = totalRemaining players := by
  induction players with
  | nil => intro idx p h _; simp at h
  | cons q qs ih =>
    intro idx p h hidx
    cases idx with
    | zero =>
      have hqp : q = p := by simpa using h
      subst hqp
      simp only [List.set, totalRemaining, List.map_cons, List.sum_cons]
      have hr : Player.remaining { q with index := q.index + CHARACTER_LINE_STEP } + 1
          = Player.remaining q := by
        simp [Player.remaining, CHARACTER_LINE_STEP]
        omega
      omega
    | succ k =>
      have hk : qs.get? k = some p := by simpa using h
      have := ih k p hk hidx
      simp only [List.set, totalRemaining, List.map_cons, List.sum_cons] at this ⊢
      omega

/-- Reduced form of `reciteStep` when the selected index is in range. -/
lemma reciteStep_eq (players : List Player) (cs : String) (exp : Nat)
    (whinge : Bool) (idx actual : Nat) (p : Player)
    (hget : players.get? idx = some p) :
    reciteStep players cs exp whinge idx actual =
      (players.set idx (p.speak cs).1, (p.speak cs).2.1,
       (checkExpected exp actual whinge).1,
       (checkExpected exp actual whinge).2 ++ (p.speak cs).2.2) := by
  unfold reciteStep
  rw [hget]

/-- One recitation step strictly decreases the number of undelivered
lines. -/
lemma reciteStep_decreases (players : List Player) (cs : String) (exp : Nat)
    (whinge : Bool) (idx actual : Nat)
    (h : findNext players = some (idx, actual)) :
    totalRemaining (reciteStep players cs exp whinge idx actual).1
      < totalRemaining players := by
  obtain ⟨⟨p, hget, hnext⟩, _⟩ := findNext_spec players idx actual h
  obtain ⟨e, he, _, hlt⟩ := next_line_some p actual hnext
  have hstep : (reciteStep players cs exp whinge idx actual).1
      = players.set idx (p.speak cs).1 := by
    rw [reciteStep_eq players cs exp whinge idx actual p hget]
  rw [hstep, (speak_of_pending p cs e he).1]
  have := totalRemaining_set_succ players idx p hget hlt
  omega

/-- The embedding of the `loop` in `SceneFragment::recite`: repeatedly scan
for the player with the smallest pending line number; when none remains,
stop; otherwise run the expected-counter bookkeeping and have the selected
player speak; the loop terminates because each step delivers one line. -/
def reciteLoop (players : List Player) (current_speaker : String) (exp : Nat)
    (whinge : Bool) : List Player × List OutEvent :=
  match h : findNext players with
  | none => (players, [])
  | some (idx, actual) =>
    let step := reciteStep players current_speaker exp whinge idx actual
    let rest := reciteLoop step.1 step.2.1 step.2.2.1 whinge
    (rest.1, step.2.2.2 ++ rest.2)
termination_by totalRemaining players
decreasing_by
  exact reciteStep_decreases players current_speaker exp whinge idx actual h

/-- The embedding of `SceneFragment::recite`: run the merge loop starting
from an empty current speaker and expected line number zero. -/
def SceneFragment.recite (f : SceneFragment) (whinge : Bool) :
    SceneFragment × List OutEvent :=
  let r := reciteLoop f.players "" 0 whinge
  ({ f with players := r.1 }, r.2)

/-! ## Behaviour of the expected-line-number bookkeeping -/

/-- Gap case: `actual > exp` triggers the missing-line warnings (in whinge
mode), sets the counter to `actual`, and the subsequent equality test then
advances it once more. -/
lemma checkExpected_gap (exp actual : Nat) (whinge : Bool) (h : exp < actual) :
    checkExpected exp actual whinge
      = (actual + 1, if whinge then missingEvents exp actual else []) := by
  unfold checkExpected
  simp [h, CHARACTER_LINE_STEP]

/-- Hit case: `actual = exp` advances the counter by one, no warnings. -/
lemma checkExpected_hit (exp : Nat) (whinge : Bool) :
    checkExpected exp exp whinge = (exp + 1, []) := by
  unfold checkExpected
  simp [CHARACTER_LINE_STEP]

/-- Duplicate case: `actual < exp` leaves the counter unchanged and warns in
whinge mode. -/
lemma checkExpected_dup (exp actual : Nat) (whinge : Bool) (h : actual < exp) :
    checkExpected exp actual whinge
      = (exp, if whinge then [OutEvent.warnDuplicate actual] else []) := by
  unfold checkExpected
  have h1 : ¬ actual > exp := by omega
  have h2 : ¬ actual = exp := by omega
  cases whinge <;> simp [h1, h2, h]

/-! ## Dialogue accounting -/

/-- Whether an output event is an actual dialogue line. -/
def isDialogue : OutEvent → Bool
  | OutEvent.dialogue _ => true
  | _ => false

/-- Number of dialogue lines among the output events. -/
def dialogueCount (evs : List OutEvent) : Nat := (evs.filter isDialogue).length

lemma dialogueCount_append (a b : List OutEvent) :
    dialogueCount (a ++ b) = dialogueCount a + dialogueCount b := by
  simp [dialogueCount, List.filter_append]

lemma dialogueCount_missing (exp actual : Nat) :
    dialogueCount (missingEvents exp actual) = 0 := by
  unfold missingEvents dialogueCount
  induction List.range' exp (actual - exp) with
  | nil => rfl
  | cons a l ih => simpa [isDialogue] using ih

/-- The expected-counter bookkeeping emits warnings only, never dialogue. -/
lemma dialogueCount_checkExpected (exp actual : Nat) (whinge : Bool) :
    dialogueCount (checkExpected exp actual whinge).2 = 0 := by
  rcases Nat.lt_trichotomy actual exp with h | h | h
  · rw [checkExpected_dup exp actual whinge h]
    cases whinge <;> simp [dialogueCount, isDialogue]
  · subst h
    rw [checkExpected_hit actual whinge]
    rfl
  · rw [checkExpected_gap exp actual whinge h]
    cases whinge
    · rfl
    · exact dialogueCount_missing exp actual

/-! ## Unfolding equations and exhaustion of the recitation loop -/

/-- Loop exit: no pending line. -/
lemma reciteLoop_none (players : List Player) (cs : String) (exp : Nat)
    (whinge : Bool) (h : findNext players = none) :
    reciteLoop players cs exp whinge = (players, []) := by
  rw [reciteLoop]
  split
  · rfl
  · rename_i heq
    rw [h] at heq
    exact Option.noConfusion heq

/-- Loop body: the selected player speaks and the loop continues. -/
lemma reciteLoop_some (players : List Player) (cs : String) (exp : Nat)
    (whinge : Bool) (idx actual : Nat)
    (h : findNext players = some (idx, actual)) :
    (reciteLoop players cs exp whinge).1
        = (reciteLoop (reciteStep players cs exp whinge idx actual).1
            (reciteStep players cs exp whinge idx actual).2.1
            (reciteStep players cs exp whinge idx actual).2.2.1 whinge).1 ∧
    (reciteLoop players cs exp whinge).2
        = (reciteStep players cs exp whinge idx actual).2.2.2 ++
          (reciteLoop (reciteStep players cs exp whinge idx actual).1
            (reciteStep players cs exp whinge idx actual).2.1
            (reciteStep players cs exp whinge idx actual).2.2.1 whinge).2 := by
  rw [reciteLoop]
  split
  · rename_i heq
    rw [h] at heq
    exact Option.noConfusion heq
  · rename_i idx' actual' heq
    rw [h] at heq
    obtain ⟨rfl, rfl⟩ : idx = idx' ∧ actual = actual' := by simpa using heq
    exact ⟨rfl, rfl⟩

/-- Projections of `reciteStep` at an in-range index. -/
lemma reciteStep_proj (players : List Player) (cs : String) (exp : Nat)
    (whinge : Bool) (idx actual : Nat) (p : Player)
    (hget : players.get? idx = some p) :
    (reciteStep players cs exp whinge idx actual).1
        = players.set idx (p.speak cs).1 ∧
    (reciteStep players cs exp whinge idx actual).2.2.2
        = (checkExpected exp actual whinge).2 ++ (p.speak cs).2.2 := by
  rw [reciteStep_eq players cs exp whinge idx actual p hget]
  exact ⟨rfl, rfl⟩

/-- The cursor-within-bounds invariant maintained by recitation. -/
def IndexInv (players : List Player) : Prop :=
  ∀ p ∈ players, p.index ≤ p.lines.length

lemma totalRemaining_zero_of_none (players : List Player)
    (h : findNext players = none) : totalRemaining players = 0 := by
  rw [findNext_eq_none] at h
  unfold totalRemaining
  apply List.sum_eq_zero
  intro x hx
  obtain ⟨p, hp, rfl⟩ := List.mem_map.mp hx
  have hnl := h p hp
  unfold Player.next_line at hnl
  unfold Player.remaining
  cases hg : p.lines.get? p.index with
  | none =>
    have := List.get?_eq_none.mp hg
    omega
  | some e =>
    rw [hg] at hnl
    simp at hnl

lemma index_eq_length_of_none (players : List Player)
    (h : findNext players = none) (hinv : IndexInv players) :
    ∀ p ∈ players, p.index = p.lines.length := by
  rw [findNext_eq_none] at h
  intro p hp
  have h1 := h p hp
  have h2 := hinv p hp
  unfold Player.next_line at h1
  cases hg : p.lines.get? p.index with
  | none =>
    have := List.get?_eq_none.mp hg
    omega
  | some e =>
    rw [hg] at h1
    simp at h1

lemma indexInv_set (players : List Player) (idx : Nat) (p' : Player)
    (hinv : IndexInv players) (hp' : p'.index ≤ p'.lines.length) :
    IndexInv (players.set idx p') := by
  intro q hq
  rcases List.mem_or_eq_of_mem_set hq with hq' | rfl
  · exact hinv q hq'
  · exact hp'

/-- The recitation loop terminates having delivered every pending line
exactly once: the number of dialogue events equals the initial number of
undelivered lines, and every final cursor sits at the end of its line
list. -/
lemma reciteLoop_exhausts (N : Nat) :
    ∀ (players : List Player) (cs : String) (exp : Nat) (whinge : Bool),
    totalRemaining players ≤ N → IndexInv players →
    dialogueCount (reciteLoop players cs exp whinge).2 = totalRemaining players ∧
    (∀ q ∈ (reciteLoop players cs exp whinge).1, q.index = q.lines.length) := by
  induction N with
  | zero =>
    intro players cs exp whinge hN hinv
    have hnone : findNext players = none := by
      cases hfn : findNext players with
      | none => rfl
      | some v =>
        obtain ⟨idx, actual⟩ := v
        exfalso
        have := reciteStep_decreases players cs exp whinge idx actual hfn
        omega
    rw [reciteLoop_none players cs exp whinge hnone]
    refine ⟨?_, index_eq_length_of_none players hnone hinv⟩
    rw [totalRemaining_zero_of_none players hnone]
    rfl
  | succ N ih =>
    intro players cs exp whinge hN hinv
    cases hfn : findNext players with
    | none =>
      rw [reciteLoop_none players cs exp whinge hfn]
      refine ⟨?_, index_eq_length_of_none players hfn hinv⟩
      rw [totalRemaining_zero_of_none players hfn]
      rfl
    | some v =>
      obtain ⟨idx, actual⟩ := v
      obtain ⟨⟨p, hget, hnext⟩, _⟩ := findNext_spec players idx actual hfn
      obtain ⟨e, he, _, hlt⟩ := next_line_some p actual hnext
      obtain ⟨hfst, hevs⟩ := reciteStep_proj players cs exp whinge idx actual p hget
      obtain ⟨hsp, hout⟩ := speak_of_pending p cs e he
      have hrem : totalRemaining (reciteStep players cs exp whinge idx actual).1 + 1
          = totalRemaining players := by
        rw [hfst, hsp]
        exact totalRemaining_set_succ players idx p hget hlt
      have hinv' : IndexInv (reciteStep players cs exp whinge idx actual).1 := by
        rw [hfst, hsp]
        apply indexInv_set players idx _ hinv
        simp only [CHARACTER_LINE_STEP]
        omega
      obtain ⟨ih1, ih2⟩ := ih (reciteStep players cs exp whinge idx actual).1
        (reciteStep players cs exp whinge idx actual).2.1
        (reciteStep players cs exp whinge idx actual).2.2.1 whinge (by omega) hinv'
      obtain ⟨hl1, hl2⟩ := reciteLoop_some players cs exp whinge idx actual hfn
      constructor
      · rw [hl2, dialogueCount_append, ih1, hevs, dialogueCount_append,
          dialogueCount_checkExpected]
        have hone : dialogueCount (p.speak cs).2.2 = 1 := by
          rcases hout with h1 | h1 <;> rw [h1] <;> simp [dialogueCount, isDialogue]
        rw [hone]
        omega
      · rw [hl1]
        exact ih2

/-! ## Claim theorems -/

/-- C1: during Scene recitation every loop iteration selects the Performer
whose pending next line number is globally smallest among the cast, ties
broken in favour of the Performer earliest in cast enumeration order; with
`actual` the selected number: if it exceeds `expected_line_number`, every
integer in `[expected, actual)` is reported missing in diagnostic mode and
the counter is set to `actual` (after which the equality test advances it
once, as the spec's sequential steps 2-3 describe); if it equals the
expected number the counter advances by one; if it is below, it is reported
as a duplicate in diagnostic mode and the counter does not advance. -/
theorem recite_selects_min_and_tracks_expected
    (players : List Player) (exp : Nat) (whinge : Bool)
    (idx actual : Nat) (h : findNext players = some (idx, actual)) :
    (∃ p, players.get? idx = some p ∧ p.next_line = some actual) ∧
    (∀ j q m, players.get? j = some q → q.next_line = some m → actual ≤ m) ∧
    (∀ j q m, j < idx → players.get? j = some q → q.next_line = some m →
      actual < m) ∧
    (exp < actual →
      checkExpected exp actual whinge
        = (actual + 1, if whinge then missingEvents exp actual else [])) ∧
    (actual = exp → checkExpected exp actual whinge = (exp + 1, [])) ∧
    (actual < exp →
      checkExpected exp actual whinge
        = (exp, if whinge then [OutEvent.warnDuplicate actual] else [])) := by
  obtain ⟨hsel, hmin⟩ := findNext_spec players idx actual h
  refine ⟨hsel, ?_, ?_, ?_, ?_, ?_⟩
  · intro j q m hq hm
    exact (hmin j q m hq hm).1
  · intro j q m hj hq hm
    exact (hmin j q m hq hm).2 hj
  · intro hgap
    exact checkExpected_gap exp actual whinge hgap
  · intro heq
    rw [heq]
    exact checkExpected_hit exp whinge
  · intro hdup
    exact checkExpected_dup exp actual whinge hdup

/-- Witness for C1 on a one-player cast whose pending line number is 0. -/
theorem recite_selects_min_and_tracks_expected_witness :
    (∃ p, [(⟨"A", [(0, "hi")], 0⟩ : Player)].get? 0 = some p ∧
      p.next_line = some 0) ∧
    (∀ j q m, [(⟨"A", [(0, "hi")], 0⟩ : Player)].get? j = some q →
      q.next_line = some m → 0 ≤ m) ∧
    (∀ j q m, j < 0 → [(⟨"A", [(0, "hi")], 0⟩ : Player)].get? j = some q →
      q.next_line = some m → 0 < m) ∧
    (0 < 0 → checkExpected 0 0 true
      = (0 + 1, if true then missingEvents 0 0 else [])) ∧
    (0 = 0 → checkExpected 0 0 true = (0 + 1, [])) ∧
    (0 < 0 → checkExpected 0 0 true
      = (0, if true then [OutEvent.warnDuplicate 0] else [])) :=
  recite_selects_min_and_tracks_expected [⟨"A", [(0, "hi")], 0⟩] 0 true 0 0 rfl

/-- C2: for every Scene whose cursors start at zero, recitation terminates
and delivers each Performer's dialogue entries exactly once: the number of
dialogue lines emitted equals the sum of the cast's parsed line counts, and
afterwards every Performer's cursor equals its number of entries. -/
theorem recite_delivers_all_lines (f : SceneFragment) (whinge : Bool)
    (h0 : ∀ p ∈ f.players, p.index = 0) :
    dialogueCount (SceneFragment.recite f whinge).2
        = (f.players.map (fun p => p.lines.length)).sum ∧
    ∀ q ∈ (SceneFragment.recite f whinge).1.players, q.index = q.lines.length := by
  have hinv : IndexInv f.players := by
    intro p hp
    rw [h0 p hp]
    exact Nat.zero_le _
  obtain ⟨h1, h2⟩ := reciteLoop_exhausts (totalRemaining f.players) f.players "" 0
    whinge (Nat.le_refl _) hinv
  have hsum : totalRemaining f.players
      = (f.players.map (fun p => p.lines.length)).sum := by
    unfold totalRemaining
    congr 1
    apply List.map_congr_left
    intro p hp
    unfold Player.remaining
    rw [h0 p hp]
    omega
  constructor
  · show dialogueCount (reciteLoop f.players "" 0 whinge).2 = _
    rw [h1, hsum]
  · show ∀ q ∈ (reciteLoop f.players "" 0 whinge).1, q.index = q.lines.length
    exact h2

/-- Witness for C2 on a two-player scene with three lines in total. -/
theorem recite_delivers_all_lines_witness :
    dialogueCount (SceneFragment.recite
        ⟨"T", [⟨"A", [(0, "hi"), (2, "yo")], 0⟩, ⟨"B", [(1, "hey")], 0⟩]⟩ true).2
      = ([(⟨"A", [(0, "hi"), (2, "yo")], 0⟩ : Player), ⟨"B", [(1, "hey")], 0⟩].map
          (fun p => p.lines.length)).sum ∧
    ∀ q ∈ (SceneFragment.recite
        ⟨"T", [⟨"A", [(0, "hi"), (2, "yo")], 0⟩, ⟨"B", [(1, "hey")], 0⟩]⟩ true).1.players,
      q.index = q.lines.length :=
  recite_delivers_all_lines
    ⟨"T", [⟨"A", [(0, "hi"), (2, "yo")], 0⟩, ⟨"B", [(1, "hey")], 0⟩]⟩ true (by decide)

/-- Auxiliary for C10: the split finds nothing in a whitespace-free list. -/
lemma splitOnceWSAux_none (l : List Char) :
    ∀ acc, (∀ c ∈ l, c.isWhitespace = false) → splitOnceWSAux l acc = none := by
  induction l with
  | nil => intro acc _; rfl
  | cons c cs ih =>
    intro acc h
    unfold splitOnceWSAux
    rw [h c (List.mem_cons_self c cs)]
    simpa using ih (c :: acc) (fun d hd => h d (List.mem_cons_of_mem c hd))

/-- C10: for every non-empty dialogue line containing no whitespace at all
(a single token, even one that parses as a valid non-negative integer),
`Player::add_script_line` leaves the player's lines unchanged and emits no
warning, even in diagnostic mode: `split_once` finds no whitespace, so the
line is skipped before the line-number parse is ever attempted. -/
theorem add_script_line_single_token_noop (p : Player) (line : String)
    (whinge : Bool) (hne : line ≠ "")
    (hnws : ∀ c ∈ line.data, c.isWhitespace = false) :
    Player.add_script_line p line whinge = (p, []) := by
  unfold Player.add_script_line
  rw [if_neg hne]
  have hs : splitOnceWS line = none := splitOnceWSAux_none line.data [] hnws
  rw [hs]

/-- Witness for C10: the single token `42` parses as a number, yet the line
is dropped silently. -/
theorem add_script_line_single_token_noop_witness :
    Player.add_script_line (Player.new "A") "42" true = (Player.new "A", []) :=
  add_script_line_single_token_noop (Player.new "A") "42" true
    (by decide) (by decide)

/-- File system for the C7 theorems: one file whose single line carries
leading whitespace. -/
def fsC7 : FS := fun name => if name = "f" then some ["  hi\n"] else none

/-- C7 counterexample: the Line Source does NOT merely strip the trailing
line terminator; `grab_trimmed_file_lines` returns `"hi"` for the raw line
`"  hi\n"`, so the leading whitespace the claim says is preserved is
gone. -/
theorem grab_trims_leading_whitespace_cex :
    grab_trimmed_file_lines fsC7 "f" = Except.ok ["hi"] ∧
    ("hi" : String) ≠ "  hi" := by
  constructor
  · rfl
  · decide

/-- C7 amended: for every readable file the Line Source returns one string
per raw line, in file order, each equal to the raw line with leading AND
trailing whitespace (terminator included) trimmed. -/
theorem grab_returns_trimmed_lines (fs : FS) (name : String) (raw : List String)
    (h : fs name = some raw) :
    grab_trimmed_file_lines fs name = Except.ok (raw.map trimStr) := by
  unfold grab_trimmed_file_lines
  rw [h]

/-- Witness for the amended C7. -/
theorem grab_returns_trimmed_lines_witness :
    grab_trimmed_file_lines fsC7 "f" = Except.ok (["  hi\n"].map trimStr) :=
  grab_returns_trimmed_lines fsC7 "f" ["  hi\n"] rfl

/-- File system for the C8 theorems: one dialogue file yielding zero
lines. -/
def fsC8 : FS := fun name => if name = "d" then some [] else none

/-- C8 counterexample: `Player::prepare` on an empty dialogue file succeeds
with an empty line list; it does not return an error as the claim states
(unlike the config and script readers, `Player::prepare` has no emptiness
check). -/
theorem player_prepare_empty_file_ok_cex :
    Player.prepare (Player.new "Alice") fsC8 "d" true
      = Except.ok (Player.new "Alice", []) ∧
    ¬ ∃ e, Player.prepare (Player.new "Alice") fsC8 "d" true
      = Except.error e := by
  have h : Player.prepare (Player.new "Alice") fsC8 "d" true
      = Except.ok (Player.new "Alice", []) := rfl
  refine ⟨h, ?_⟩
  rintro ⟨e, he⟩
  rw [h] at he
  exact Except.noConfusion he

/-- C8 amended: preparing a Performer from a dialogue file yielding zero
lines succeeds, producing a Performer with an empty line list and no
warnings. -/
theorem player_prepare_empty_file_succeeds (name : String) (fs : FS)
    (fname : String) (whinge : Bool) (h : fs fname = some []) :
    Player.prepare (Player.new name) fs fname whinge
      = Except.ok (Player.new name, []) := by
  unfold Player.prepare grab_trimmed_file_lines
  rw [h]
  rfl

/-- Witness for the amended C8. -/
theorem player_prepare_empty_file_succeeds_witness :
    Player.prepare (Player.new "Alice") fsC8 "d" false
      = Except.ok (Player.new "Alice", []) :=
  player_prepare_empty_file_succeeds "Alice" fsC8 "d" false rfl

/-! ## The pair order used by the dialogue sort -/

lemma lexLe_total (a : List Char) : ∀ b, lexLe a b = true ∨ lexLe b a = true := by
  induction a with
  | nil => intro b; left; rfl
  | cons x xs ih =>
    intro b
    cases b with
    | nil => right; rfl
    | cons y ys =>
      by_cases hxy : x.toNat = y.toNat
      · unfold lexLe
        rw [if_pos hxy, if_pos hxy.symm]
        exact ih ys
      · have hyx : ¬ y.toNat = x.toNat := fun h => hxy h.symm
        unfold lexLe
        rw [if_neg hxy, if_neg hyx]
        rcases Nat.lt_or_ge x.toNat y.toNat with h | h
        · left; exact decide_eq_true h
        · right
          exact decide_eq_true (by omega)

lemma lexLe_trans (a : List Char) :
    ∀ b c, lexLe a b = true → lexLe b c = true → lexLe a c = true := by
  induction a with
  | nil => intro b c _ _; rfl
  | cons x xs ih =>
    intro b c h1 h2
    cases b with
    | nil => simp [lexLe] at h1
    | cons y ys =>
      cases c with
      | nil => simp [lexLe] at h2
      | cons z zs =>
        unfold lexLe at h1 h2 ⊢
        by_cases hxy : x.toNat = y.toNat
        · rw [if_pos hxy] at h1
          by_cases hyz : y.toNat = z.toNat
          · rw [if_pos hyz] at h2
            rw [if_pos (hxy.trans hyz)]
            exact ih ys zs h1 h2
          · rw [if_neg hyz] at h2
            have hzy : y.toNat < z.toNat := of_decide_eq_true h2
            rw [if_neg (show ¬ x.toNat = z.toNat by omega)]
            exact decide_eq_true (by omega)
        · rw [if_neg hxy] at h1
          have hlt1 : x.toNat < y.toNat := of_decide_eq_true h1
          by_cases hyz : y.toNat = z.toNat
          · rw [if_neg (show ¬ x.toNat = z.toNat by omega)]
            exact decide_eq_true (by omega)
          · rw [if_neg hyz] at h2
            have hlt2 : y.toNat < z.toNat := of_decide_eq_true h2
            rw [if_neg (show ¬ x.toNat = z.toNat by omega)]
            exact decide_eq_true (by omega)

instance : IsTotal (Nat × String) LineLeP := by
  constructor
  intro a b
  unfold LineLeP lineLe strLe
  rcases Nat.lt_trichotomy a.1 b.1 with h | h | h
  · left
    simp [h]
  · rcases lexLe_total a.2.data b.2.data with h2 | h2
    · left
      simp [h, h2]
    · right
      simp [h, h2]
  · right
    simp [h]

instance : IsTrans (Nat × String) LineLeP := by
  constructor
  intro a b c h1 h2
  unfold LineLeP lineLe strLe at h1 h2 ⊢
  simp only [Bool.or_eq_true, Bool.and_eq_true, decide_eq_true_eq] at h1 h2 ⊢
  rcases h1 with h1 | ⟨h1e, h1s⟩ <;> rcases h2 with h2 | ⟨h2e, h2s⟩
  · left; omega
  · left; omega
  · left; omega
  · right
    exact ⟨by omega, lexLe_trans a.2.data b.2.data c.2.data h1s h2s⟩

/-- File system for the C3 theorems: a dialogue file whose two entries share
line number 1 but carry texts in anti-lexicographic file order. -/
def fsC3 : FS := fun name => if name = "dlg" then some ["1 b\n", "1 a\n"] else none

/-- C3 counterexample: parsing the file's lines in order collects
`[(1, "b"), (1, "a")]`, but `Player::prepare` returns the entries as
`[(1, "a"), (1, "b")]`: Rust's `Vec<(usize, String)>::sort()` orders by the
whole pair, so entries sharing a line number are reordered by their text
instead of keeping their original file order. -/
theorem prepare_sort_not_file_stable_cex :
    (Player.processLines (Player.new "X") ["1 b", "1 a"] false).1.lines
      = [(1, "b"), (1, "a")] ∧
    Player.prepare (Player.new "X") fsC3 "dlg" false
      = Except.ok (⟨"X", [(1, "a"), (1, "b")], 0⟩, []) ∧
    ([(1, "a"), (1, "b")] : List (Nat × String)) ≠ [(1, "b"), (1, "a")] := by
  refine ⟨rfl, rfl, ?_⟩
  decide

/-- C3 amended: after `Player::prepare` the Performer's lines are a
permutation of the entries parsed from the file in order, sorted (weakly
increasingly) by the pair order: first by line number, with equal line
numbers ordered by text — not by original file position. -/
theorem prepare_lines_sorted_perm (p : Player) (fs : FS) (fname : String)
    (whinge : Bool) (p' : Player) (ws : List ParseWarning)
    (h : Player.prepare p fs fname whinge = Except.ok (p', ws)) :
    List.Pairwise LineLeP p'.lines ∧
    ∃ raw, fs fname = some raw ∧
      p'.lines.Perm (Player.processLines p (raw.map trimStr) whinge).1.lines := by
  unfold Player.prepare grab_trimmed_file_lines at h
  cases hf : fs fname with
  | none =>
    rw [hf] at h
    exact Except.noConfusion h
  | some raw =>
    rw [hf] at h
    simp only [Except.ok.injEq, Prod.mk.injEq] at h
    obtain ⟨hp', _⟩ := h
    have hlines : p'.lines
        = sortLines (Player.processLines p (raw.map trimStr) whinge).1.lines := by
      rw [← hp']
    refine ⟨?_, raw, rfl, ?_⟩
    · rw [hlines]
      exact List.sorted_insertionSort LineLeP _
    · rw [hlines]
      exact List.perm_insertionSort LineLeP _

/-- Witness for the amended C3 at the concrete file of the
counterexample. -/
theorem prepare_lines_sorted_perm_witness :
    List.Pairwise LineLeP ([(1, "a"), (1, "b")] : List (Nat × String)) ∧
    ∃ raw, fsC3 "dlg" = some raw ∧
      ([(1, "a"), (1, "b")] : List (Nat × String)).Perm
        (Player.processLines (Player.new "X") (raw.map trimStr) false).1.lines :=
  prepare_lines_sorted_perm (Player.new "X") fsC3 "dlg" false
    ⟨"X", [(1, "a"), (1, "b")], 0⟩ [] rfl

/-! ## Flag dependence of the script parser -/

/-- A list of whitespace characters tokenizes to nothing. -/
lemma splitWSAux_all_ws (l : List Char) (h : ∀ c ∈ l, c.isWhitespace = true) :
    splitWSAux l [] = [] := by
  induction l with
  | nil => rfl
  | cons c cs ih =>
    unfold splitWSAux
    rw [h c (List.mem_cons_self c cs)]
    simpa using ih (fun d hd => h d (List.mem_cons_of_mem c hd))

/-- A line that is blank after trimming has no whitespace tokens. -/
lemma splitWhitespace_eq_nil_of_blank (line : String) (h : trimStr line = "") :
    splitWhitespace line = [] := by
  have hdata : trimChars line.data = [] := by
    have := congrArg String.data h
    simpa [trimStr] using this
  have hws : ∀ c ∈ line.data, c.isWhitespace = true := by
    intro c hc
    rw [← List.takeWhile_append_dropWhile (p := Char.isWhitespace) (l := line.data)]
      at hc
    rcases List.mem_append.mp hc with hc1 | hc2
    · exact List.mem_takeWhile_imp hc1
    · unfold trimChars at hdata
      rw [List.reverse_eq_nil_iff] at hdata
      have hall := List.dropWhile_eq_nil_iff.mp hdata
      exact hall c (List.mem_reverse.mpr hc2)
  exact splitWSAux_all_ws line.data hws

/-- C4 counterexample: the diagnostic flag DOES alter the constructed
state.  On the line `"[scene]"` (a marker with no following tokens),
`Play::add_config` drops the line when the flag is on, but pushes the title
entry `(true, "")` when the flag is off: the early `return` sits inside the
whinge-guarded branch (play.rs lines 78-86). -/
theorem add_config_scene_marker_flag_dependent_cex :
    (Play.add_config "[scene]" [] true).1 = [] ∧
    (Play.add_config "[scene]" [] false).1 = [(true, "")] ∧
    (Play.add_config "[scene]" [] true).1 ≠ (Play.add_config "[scene]" [] false).1 := by
  refine ⟨rfl, rfl, ?_⟩
  decide

/-- C4 amended: the entry sequence produced by `Play::add_config` is
independent of the diagnostic flag for every line EXCEPT a `[scene]` marker
with no following tokens; such a line is dropped when the flag is on but
produces an empty-string title entry when the flag is off. -/
theorem add_config_flag_independent_except_bare_scene
    (line : String) (config : List (Bool × String)) :
    (splitWhitespace line ≠ ["[scene]"] →
      (Play.add_config line config true).1 = (Play.add_config line config false).1) ∧
    (splitWhitespace line = ["[scene]"] →
      (Play.add_config line config true).1 = config ∧
      (Play.add_config line config false).1 = config ++ [(true, "")]) := by
  constructor
  · intro hne
    unfold Play.add_config
    by_cases hb : trimStr line = ""
    · rw [if_pos hb, if_pos hb]
    · rw [if_neg hb, if_neg hb]
      cases hsp : splitWhitespace line with
      | nil => rfl
      | cons t0 rest =>
        by_cases ht : t0 = "[scene]"
        · subst ht
          have hrest : rest ≠ [] := by
            intro h0
            apply hne
            rw [hsp, h0]
          have hlen : ¬ (rest.length + 1 < SCENE_SCRIPT_LENGTH) := by
            have : 0 < rest.length := List.length_pos.mpr hrest
            simp only [SCENE_SCRIPT_LENGTH]
            omega
          simp [hlen]
        · by_cases hx : rest.length + 1 > CONFIG_SCRIPT_LENGTH <;> simp [ht, hx]
  · intro hsp
    have hb : ¬ trimStr line = "" := by
      intro h0
      rw [splitWhitespace_eq_nil_of_blank line h0] at hsp
      exact List.noConfusion hsp
    unfold Play.add_config
    rw [if_neg hb, if_neg hb, hsp]
    constructor
    · rfl
    · rfl

/-- Witness for the amended C4: a config line with an extra token parses
identically under both flags, and a bare `[scene]` line shows the two
flag-dependent outcomes. -/
theorem add_config_flag_independent_except_bare_scene_witness :
    (Play.add_config "cfg extra" [] true).1
      = (Play.add_config "cfg extra" [] false).1 ∧
    ((Play.add_config "[scene]" [] true).1 = [] ∧
     (Play.add_config "[scene]" [] false).1 = [] ++ [(true, "")]) :=
  ⟨(add_config_flag_independent_except_bare_scene "cfg extra" []).1 (by decide),
   (add_config_flag_independent_except_bare_scene "[scene]" []).2 (by decide)⟩

/-! ## Scene boundaries -/

/-- C5: at the boundary between two consecutive Scenes, a character whose
name (by exact string equality) occurs in both casts receives neither an
exit announcement from the first Scene nor an entrance announcement in the
second; entrances are a filtered subsequence of the second cast in
enumeration order, exits a filtered subsequence of the first cast in
reverse enumeration order, and the names exited plus the names retained
together are a permutation of the first Scene's full cast. -/
theorem scene_boundary_enter_exit (first second : SceneFragment) (name : String)
    (h1 : name ∈ castNames first) (h2 : name ∈ castNames second) :
    name ∉ SceneFragment.exit_names first second ∧
    name ∉ SceneFragment.enter_names second first ∧
    (SceneFragment.enter_names second first).Sublist (castNames second) ∧
    (SceneFragment.exit_names first second).Sublist (castNames first).reverse ∧
    (SceneFragment.exit_names first second ++ retainedNames first second).Perm
      (castNames first) := by
  obtain ⟨q2, hq2, hq2n⟩ := List.mem_map.mp h2
  obtain ⟨q1, hq1, hq1n⟩ := List.mem_map.mp h1
  refine ⟨?_, ?_, ?_, ?_, ?_⟩
  · intro hmem
    unfold SceneFragment.exit_names at hmem
    obtain ⟨pl, hpl, hple⟩ := List.mem_map.mp hmem
    rw [List.mem_filter] at hpl
    obtain ⟨_, hcond⟩ := hpl
    simp only [Bool.not_eq_true', List.any_eq_false] at hcond
    have hfalse := hcond q2 hq2
    rw [hq2n, hple] at hfalse
    simp at hfalse
  · intro hmem
    unfold SceneFragment.enter_names at hmem
    obtain ⟨pl, hpl, hple⟩ := List.mem_map.mp hmem
    rw [List.mem_filter] at hpl
    obtain ⟨_, hcond⟩ := hpl
    simp only [Bool.not_eq_true', List.any_eq_false] at hcond
    have hfalse := hcond q1 hq1
    rw [hq1n, hple] at hfalse
    simp at hfalse
  · unfold SceneFragment.enter_names castNames
    exact List.Sublist.map _ (List.filter_sublist _)
  · unfold SceneFragment.exit_names castNames
    rw [← List.map_reverse]
    exact List.Sublist.map _ (List.filter_sublist _)
  · unfold SceneFragment.exit_names retainedNames castNames
    have hperm := List.filter_append_perm
      (fun pl => !(second.players.any (fun p => p.name == pl.name))) first.players
    have hsimp : first.players.filter
          (fun pl => !(!(second.players.any (fun p => p.name == pl.name))))
        = first.players.filter
          (fun pl => second.players.any (fun p => p.name == pl.name)) := by
      apply List.filter_congr
      intro x _
      rw [Bool.not_not]
    rw [hsimp] at hperm
    rw [List.filter_reverse, List.map_reverse]
    refine List.Perm.trans (List.Perm.append_right _ (List.reverse_perm _)) ?_
    rw [← List.map_append]
    exact List.Perm.map _ hperm

/-- Witness for C5: `Bob` appears in both casts, so the boundary announces
nothing for him. -/
theorem scene_boundary_enter_exit_witness :
    "Bob" ∉ SceneFragment.exit_names ⟨"S1", [⟨"Bob", [], 0⟩]⟩ ⟨"S2", [⟨"Bob", [], 0⟩]⟩ ∧
    "Bob" ∉ SceneFragment.enter_names ⟨"S2", [⟨"Bob", [], 0⟩]⟩ ⟨"S1", [⟨"Bob", [], 0⟩]⟩ ∧
    (SceneFragment.enter_names ⟨"S2", [⟨"Bob", [], 0⟩]⟩ ⟨"S1", [⟨"Bob", [], 0⟩]⟩).Sublist
      (castNames ⟨"S2", [⟨"Bob", [], 0⟩]⟩) ∧
    (SceneFragment.exit_names ⟨"S1", [⟨"Bob", [], 0⟩]⟩ ⟨"S2", [⟨"Bob", [], 0⟩]⟩).Sublist
      (castNames ⟨"S1", [⟨"Bob", [], 0⟩]⟩).reverse ∧
    (SceneFragment.exit_names ⟨"S1", [⟨"Bob", [], 0⟩]⟩ ⟨"S2", [⟨"Bob", [], 0⟩]⟩ ++
      retainedNames ⟨"S1", [⟨"Bob", [], 0⟩]⟩ ⟨"S2", [⟨"Bob", [], 0⟩]⟩).Perm
      (castNames ⟨"S1", [⟨"Bob", [], 0⟩]⟩) :=
  scene_boundary_enter_exit ⟨"S1", [⟨"Bob", [], 0⟩]⟩ ⟨"S2", [⟨"Bob", [], 0⟩]⟩ "Bob"
    (by decide) (by decide)

/-! ## Cast names -/

/-- `add_script_line` only touches the line list, never the name. -/
lemma add_script_line_name (p : Player) (line : String) (whinge : Bool) :
    (Player.add_script_line p line whinge).1.name = p.name := by
  unfold Player.add_script_line
  split
  · rfl
  · split
    · rfl
    · split
      · rfl
      · rfl

/-- The parse fold preserves the player's name. -/
lemma processLines_foldl_name (ls : List String) :
    ∀ (acc : Player × List ParseWarning) (whinge : Bool),
    (ls.foldl
      (fun acc line =>
        let r := Player.add_script_line acc.1 line whinge
        (r.1, acc.2 ++ r.2)) acc).1.name = acc.1.name := by
  induction ls with
  | nil => intro acc w; rfl
  | cons l rest ih =>
    intro acc w
    rw [List.foldl_cons, ih]
    exact add_script_line_name acc.1 l w

/-- `Player::prepare` returns a player with the requested name. -/
lemma player_prepare_name (p : Player) (fs : FS) (fname : String) (whinge : Bool)
    (p' : Player) (ws : List ParseWarning)
    (h : Player.prepare p fs fname whinge = Except.ok (p', ws)) :
    p'.name = p.name := by
  unfold Player.prepare at h
  cases hf : grab_trimmed_file_lines fs fname with
  | error e =>
    rw [hf] at h
    exact Except.noConfusion h
  | ok ls =>
    rw [hf] at h
    simp only [Except.ok.injEq, Prod.mk.injEq] at h
    obtain ⟨hp', _⟩ := h
    rw [← hp']
    exact processLines_foldl_name ls (p, []) whinge

/-- `SceneFragment::process_config` builds exactly one player per config
entry, carrying that entry's character name, in order. -/
lemma process_config_names (fs : FS) (whinge : Bool) :
    ∀ (config : List (String × String)) (players : List Player)
      (ws : List ParseWarning),
    SceneFragment.process_config fs whinge config = Except.ok (players, ws) →
    players.map (fun p => p.name) = config.map Prod.fst := by
  intro config
  induction config with
  | nil =>
    intro players ws h
    simp only [SceneFragment.process_config, Except.ok.injEq, Prod.mk.injEq] at h
    obtain ⟨h1, _⟩ := h
    rw [← h1]
    rfl
  | cons entry rest ih =>
    intro players ws h
    obtain ⟨pname, pfile⟩ := entry
    unfold SceneFragment.process_config at h
    cases hp : Player.prepare (Player.new pname) fs pfile whinge with
    | error e =>
      rw [hp] at h
      exact Except.noConfusion h
    | ok pr =>
      obtain ⟨player, ws1⟩ := pr
      rw [hp] at h
      cases hr : SceneFragment.process_config fs whinge rest with
      | error e =>
        rw [hr] at h
        exact Except.noConfusion h
      | ok pr2 =>
        obtain ⟨players2, ws2⟩ := pr2
        rw [hr] at h
        simp only [Except.ok.injEq, Prod.mk.injEq] at h
        obtain ⟨h1, _⟩ := h
        rw [← h1]
        have hn : player.name = pname :=
          player_prepare_name (Player.new pname) fs pfile whinge player ws1 hp
        have ht := ih players2 ws2 hr
        simp only [List.map_cons, hn, ht]

/-- File system for the C9 theorems: a scene configuration casting the same
character name twice, with two different dialogue files. -/
def fsC9 : FS := fun name =>
  if name = "cfg" then some ["Alice f1", "Alice f2"]
  else if name = "f1" then some ["0 hi"]
  else if name = "f2" then some ["1 yo"]
  else none

/-- C9 counterexample: a successfully prepared Scene can contain two
Performers with the same name — nothing in `SceneFragment::process_config`
deduplicates names, so the cast of the scene built from `fsC9` is
`Alice, Alice`. -/
theorem cast_duplicate_names_cex :
    SceneFragment.prepare "T" fsC9 "cfg" false
      = Except.ok (⟨"T", [⟨"Alice", [(0, "hi")], 0⟩, ⟨"Alice", [(1, "yo")], 0⟩]⟩, []) ∧
    ¬ (castNames ⟨"T", [⟨"Alice", [(0, "hi")], 0⟩, ⟨"Alice", [(1, "yo")], 0⟩]⟩).Nodup := by
  constructor
  · rfl
  · decide

/-- C9 amended: after a successful `SceneFragment::prepare` the cast's
names are exactly the retained configuration entries' character names (as a
multiset: one Performer per entry, reordered only by the cast sort); names
are NOT unique within a Scene — a duplicated name in the configuration
yields duplicate cast members. -/
theorem cast_names_perm_config (title : String) (fs : FS) (cfg : String)
    (whinge : Bool) (frag : SceneFragment) (ws : List ParseWarning)
    (h : SceneFragment.prepare title fs cfg whinge = Except.ok (frag, ws)) :
    ∃ entries pws,
      SceneFragment.read_config fs cfg whinge = Except.ok (entries, pws) ∧
      (frag.players.map (fun p => p.name)).Perm (entries.map Prod.fst) := by
  unfold SceneFragment.prepare at h
  cases hr : SceneFragment.read_config fs cfg whinge with
  | error e =>
    rw [hr] at h
    exact Except.noConfusion h
  | ok pr =>
    obtain ⟨entries, pws⟩ := pr
    rw [hr] at h
    dsimp only at h
    cases hp : SceneFragment.process_config fs whinge entries with
    | error e =>
      rw [hp] at h
      exact Except.noConfusion h
    | ok pr2 =>
      obtain ⟨players, ws2⟩ := pr2
      rw [hp] at h
      simp only [Except.ok.injEq, Prod.mk.injEq] at h
      obtain ⟨h1, _⟩ := h
      refine ⟨entries, pws, rfl, ?_⟩
      have hfrag : frag.players = sortPlayers players := by rw [← h1]
      rw [hfrag, ← process_config_names fs whinge entries players ws2 hp]
      exact List.Perm.map _ (List.perm_insertionSort PlayerLeP players)

/-- Witness for the amended C9 at the duplicate-name configuration. -/
theorem cast_names_perm_config_witness :
    ∃ entries pws,
      SceneFragment.read_config fsC9 "cfg" false = Except.ok (entries, pws) ∧
      ((⟨"T", [⟨"Alice", [(0, "hi")], 0⟩,
          ⟨"Alice", [(1, "yo")], 0⟩]⟩ : SceneFragment).players.map
        (fun p => p.name)).Perm (entries.map Prod.fst) :=
  cast_names_perm_config "T" fsC9 "cfg" false
    ⟨"T", [⟨"Alice", [(0, "hi")], 0⟩, ⟨"Alice", [(1, "yo")], 0⟩]⟩ [] rfl

/-! ## Failure conditions of `Play::prepare` -/

/-- The script fold ignores lines that are blank after trimming. -/
lemma script_fold_blank (ls : List String) :
    ∀ (acc : List (Bool × String) × List ParseWarning) (w : Bool),
    (∀ l ∈ ls, trimStr l = "") →
    ls.foldl
      (fun acc line =>
        let r := Play.add_config line acc.1 w
        (r.1, acc.2 ++ r.2)) acc = acc := by
  induction ls with
  | nil => intro acc w _; rfl
  | cons l rest ih =>
    intro acc w h
    rw [List.foldl_cons]
    have hadd : Play.add_config l acc.1 w = (acc.1, []) := by
      unfold Play.add_config
      rw [if_pos (h l (List.mem_cons_self l rest))]
    have h1 : (let r := Play.add_config l acc.1 w
        (r.1, acc.2 ++ r.2)) = acc := by
      simp only [hadd]
      simp
    rw [h1]
    exact ih acc w (fun x hx => h x (List.mem_cons_of_mem l hx))

/-- File system for the C6 counterexample: the script references two scene
configurations and the second, `bad`, cannot be opened. -/
def fsC6 : FS := fun name =>
  if name = "script" then some ["[scene] T", "good", "bad"]
  else if name = "good" then some ["Alice d"]
  else if name = "d" then some ["0 hi"]
  else none

/-- The same files with `bad` now readable. -/
def fsC6b : FS := fun name =>
  if name = "script" then some ["[scene] T", "good", "bad"]
  else if name = "good" then some ["Alice d"]
  else if name = "bad" then some ["Bob d"]
  else if name = "d" then some ["0 hi"]
  else none

/-- C6 counterexample: `Play::prepare` can fail although none of the
claim's three conditions holds — the script yields three lines (not zero),
its first referenced Scene is built successfully and carries a title, and
the identical script succeeds once `bad` is readable; the failure is caused
solely by the unopenable scene-configuration file, a condition outside the
claim's "exactly when" list. -/
theorem play_prepare_extra_failure_cex :
    Play.prepare fsC6 "script" false = Except.error FAILED_TO_OPEN_FILE ∧
    grab_trimmed_file_lines fsC6 "script" = Except.ok ["[scene] T", "good", "bad"] ∧
    SceneFragment.prepare "T" fsC6 "good" false
      = Except.ok (⟨"T", [⟨"Alice", [(0, "hi")], 0⟩]⟩, []) ∧
    Play.prepare fsC6b "script" false
      = Except.ok ([⟨"T", [⟨"Alice", [(0, "hi")], 0⟩]⟩,
                    ⟨"", [⟨"Bob", [(0, "hi")], 0⟩]⟩], []) := by
  exact ⟨rfl, rfl, rfl, rfl⟩

/-- C6 amended: `Play::prepare` fails exactly when the script file cannot
be opened, or it yields zero lines, or building some referenced Scene fails
(`Play::process_config` propagates an error), or processing produces zero
Scenes, or the first produced Scene has a blank title; and a script whose
lines are all blank yields zero Scenes and is fatal, just like an empty
script file. -/
theorem play_prepare_error_characterization (fs : FS) (sname : String)
    (whinge : Bool) :
    ((∃ e, Play.prepare fs sname whinge = Except.error e) ↔
      (fs sname = none ∨
       (∃ raw, fs sname = some raw ∧ raw = []) ∨
       (∃ raw, fs sname = some raw ∧ raw ≠ [] ∧
        ((∃ e, Play.process_config fs whinge
            (Play.readEntries (raw.map trimStr) whinge).1 "" = Except.error e) ∨
         (∃ ws, Play.process_config fs whinge
            (Play.readEntries (raw.map trimStr) whinge).1 "" = Except.ok ([], ws)) ∨
         (∃ first rest ws, Play.process_config fs whinge
            (Play.readEntries (raw.map trimStr) whinge).1 ""
              = Except.ok (first :: rest, ws) ∧
            first.has_scene_title = false))))) ∧
    (∀ raw, fs sname = some raw → (∀ l ∈ raw, trimStr l = "") →
      ∃ e, Play.prepare fs sname whinge = Except.error e) := by
  constructor
  · unfold Play.prepare Play.read_config grab_trimmed_file_lines
    cases hf : fs sname with
    | none =>
      constructor
      · intro _
        exact Or.inl rfl
      · intro _
        exact ⟨FAILED_TO_OPEN_FILE, rfl⟩
    | some raw =>
      dsimp only
      by_cases hmap : raw.map trimStr = []
      · rw [if_pos hmap]
        have hraw : raw = [] := List.map_eq_nil.mp hmap
        constructor
        · intro _
          exact Or.inr (Or.inl ⟨raw, rfl, hraw⟩)
        · intro _
          exact ⟨SCRIPT_PARSING_ERROR, rfl⟩
      · rw [if_neg hmap]
        have hraw : raw ≠ [] := by
          intro h0
          apply hmap
          rw [h0]
          rfl
        cases hre : Play.readEntries (raw.map trimStr) whinge with
        | mk entries ws1 =>
          dsimp only
          cases hpc : Play.process_config fs whinge entries "" with
          | error e0 =>
            constructor
            · intro _
              refine Or.inr (Or.inr ⟨raw, rfl, hraw, ?_⟩)
              rw [hre]
              exact Or.inl ⟨e0, hpc⟩
            · intro _
              exact ⟨e0, rfl⟩
          | ok pr =>
            obtain ⟨frags, ws2⟩ := pr
            dsimp only
            cases frags with
            | nil =>
              constructor
              · intro _
                refine Or.inr (Or.inr ⟨raw, rfl, hraw, ?_⟩)
                rw [hre]
                exact Or.inr (Or.inl ⟨ws2, hpc⟩)
              · intro _
                exact ⟨SCRIPT_PARSING_ERROR, rfl⟩
            | cons first rest =>
              by_cases hb : first.has_scene_title
              · simp only [hb, Bool.not_true, Bool.false_eq_true, if_false]
                constructor
                · rintro ⟨e, he⟩
                  exact Except.noConfusion he
                · rintro (h | ⟨raw', h1, h2⟩ | ⟨raw', h1, _, hin⟩)
                  · exact Option.noConfusion h
                  · obtain rfl : raw = raw' := by simpa using h1
                    exact (hraw h2).elim
                  · obtain rfl : raw = raw' := by simpa using h1
                    rw [hre] at hin
                    rcases hin with ⟨e, hpe⟩ | ⟨ws', hpw⟩ | ⟨f, r, w, hpf, hft⟩
                    · rw [hpc] at hpe
                      exact Except.noConfusion hpe
                    · rw [hpc] at hpw
                      simp at hpw
                    · rw [hpc] at hpf
                      simp only [Except.ok.injEq, Prod.mk.injEq,
                        List.cons.injEq] at hpf
                      obtain ⟨⟨rfl, _⟩, _⟩ := hpf
                      rw [hb] at hft
                      exact Bool.noConfusion hft
              · have hb' : first.has_scene_title = false := by
                  simpa using hb
                simp only [hb', Bool.not_false, if_true]
                constructor
                · intro _
                  refine Or.inr (Or.inr ⟨raw, rfl, hraw, ?_⟩)
                  rw [hre]
                  exact Or.inr (Or.inr ⟨first, rest, ws2, hpc, hb'⟩)
                · intro _
                  exact ⟨SCRIPT_PARSING_ERROR, rfl⟩
  · intro raw hsome hblank
    unfold Play.prepare Play.read_config grab_trimmed_file_lines
    rw [hsome]
    dsimp only
    by_cases hmap : raw.map trimStr = []
    · rw [if_pos hmap]
      exact ⟨SCRIPT_PARSING_ERROR, rfl⟩
    · rw [if_neg hmap]
      have hentries : Play.readEntries (raw.map trimStr) whinge = ([], []) := by
        unfold Play.readEntries
        apply script_fold_blank
        intro l hl
        obtain ⟨x, hx, rfl⟩ := List.mem_map.mp hl
        rw [hblank x hx]
        rfl
      rw [hentries]
      exact ⟨SCRIPT_PARSING_ERROR, rfl⟩

/-- Blank-lines-only script for the C6 witness. -/
def fsC6w : FS := fun name => if name = "s" then some [" ", "  "] else none

/-- Witness for the amended C6: a script of only blank lines is fatal. -/
theorem play_prepare_error_characterization_witness :
    ∃ e, Play.prepare fsC6w "s" false = Except.error e :=
  (play_prepare_error_characterization fsC6w "s" false).2 [" ", "  "] rfl (by decide)

end Lab2
